import Mathlib

/-!
# Verification of the time-tracker core (`app.py`)

Shallow embedding of the core logic of the single-user time-tracking web
application: the session state machine (`handle_start` / `handle_stop`),
the taxonomy index (`build_project_map`, `add_project_activity`), the log
normalizer (`normalize_log_dataframe`), the daily branch of the
aggregation engine (`build_summary`) and the active-session display
builder (`build_active_entry`).

Modelling conventions:
* A pandas cell is a `RawCell`: its parse results under
  `pd.to_datetime(·, errors := coerce)` and `pd.to_numeric(·, errors := coerce)`
  are `Option` fields (`none` is NaT/NaN), `asString` is its `str(·)` value and
  `isNA` records `pd.isna`.  Parsing is thereby deterministic per value, which
  matches pandas: the same cell always parses the same way.
* Timestamps are rational seconds since the epoch; the calendar date of a
  timestamp is its floored day index (`Timestamp.dateOf`).
* Python floats are modelled as `ℚ`; Python `round` is round-half-to-even.
* `str.strip` is `pyStrip`; `str.lower` is `pyLower`; Python string
  comparison is code-point lexicographic (`strLe`).
* Dataframes are lists of typed rows; the three sheets of the workbook form a
  `Store`.  Each handler is a function `Store → inputs → outcome × Store`:
  the handlers call `write_workbook` only on the paths modelled as changing
  the store, so on the other paths the store is returned unchanged.
* Python `sorted` is modelled with `List.insertionSort`: every list this code
  sorts has been deduplicated first, and on lists without duplicate keys all
  correct sorts of a total order agree.
* `write_workbook` re-coerces the `Date`/`Start`/`End` columns with
  `pd.to_datetime` before persisting; on the values the handlers store
  (datetimes and dates) that conversion is the identity, so it is not
  modelled separately.
-/

namespace TimeTracker

/-! ## Python string primitives -/

/-- Python `<=` on strings, viewed as code-point lists: lexicographic
comparison by code point. -/
def listCharLe : List Char → List Char → Bool
  | [], _ => true
  | _ :: _, [] => false
  | a :: as, b :: bs =>
    if a.toNat < b.toNat then true
    else if b.toNat < a.toNat then false
    else listCharLe as bs

/-- Python `<=` on strings. -/
def strLe (a b : String) : Prop := listCharLe a.data b.data = true

instance : DecidableRel strLe := fun _ _ => inferInstanceAs (Decidable (_ = true))

/-- The reversed order on `ℤ`, used for pandas `sort_index(ascending := False)`. -/
def intGe (a b : ℤ) : Prop := b ≤ a

instance : DecidableRel intGe := fun a b => inferInstanceAs (Decidable (b ≤ a))

/-- Python `str.strip()` on a list of characters: drop whitespace from both
ends. -/
def pyStripList (l : List Char) : List Char :=
  ((l.dropWhile Char.isWhitespace).reverse.dropWhile Char.isWhitespace).reverse

/-- Python `str.strip()`. -/
def pyStrip (s : String) : String :=
  String.mk (pyStripList s.data)

/-- Python `str.lower()` (character-wise lowering, as used by the
case-insensitive duplicate check). -/
def pyLower (s : String) : String :=
  String.mk (s.data.map Char.toLower)

/-- Python `round` on a rational: round half to even. -/
def pyRound (q : ℚ) : ℤ :=
  let f : ℤ := ⌊q⌋
  if q - f < 1/2 then f
  else if q - f > 1/2 then f + 1
  else if Even f then f else f + 1

/-- Python `round(x, 2)`: round half to even at two decimal places. -/
def roundTo2 (q : ℚ) : ℚ :=
  (pyRound (q * 100) : ℚ) / 100

/-- Python `f"{n:02d}"`: decimal rendering padded with a leading zero to
width 2 (a negative sign counts towards the width, as in Python). -/
def pad2 (n : ℤ) : String :=
  if 0 ≤ n ∧ n < 10 then "0" ++ toString n else toString n

/-! ## Data model -/

/-- A point in time: rational seconds since the epoch (midnight of day 0). -/
structure Timestamp where
  seconds : ℚ
deriving DecidableEq, Repr

/-- `datetime.date()` / `.dt.date`: the index of the calendar day containing
the timestamp. -/
def Timestamp.dateOf (t : Timestamp) : ℤ :=
  ⌊t.seconds / 86400⌋

/-- A raw spreadsheet cell, described by how pandas interprets it. -/
structure RawCell where
  /-- `pd.to_datetime(value, errors := coerce)`; `none` is NaT. -/
  parseTimestamp : Option Timestamp
  /-- `pd.to_numeric(value, errors := coerce)`; `none` is NaN. -/
  parseNumber : Option ℚ
  /-- `str(value)`. -/
  asString : String
  /-- `pd.isna(value)`. -/
  isNA : Bool
deriving DecidableEq, Repr

/-- The cell a handler writes when it stores a Python string. -/
def RawCell.ofString (s : String) : RawCell :=
  ⟨none, none, s, false⟩

/-- The cell a handler writes when it stores a `datetime` value:
`pd.to_datetime` is the identity on it. -/
def RawCell.ofTimestamp (t : Timestamp) : RawCell :=
  ⟨some t, none, "", false⟩

/-- The cell a handler writes when it stores a `date` value: `pd.to_datetime`
parses it to midnight of that day. -/
def RawCell.ofDate (d : ℤ) : RawCell :=
  ⟨some ⟨(d : ℚ) * 86400⟩, none, "", false⟩

/-- The cell a handler writes when it stores a number. -/
def RawCell.ofNumber (q : ℚ) : RawCell :=
  ⟨none, some q, "", false⟩

/-- `_safe_string`: strings pass through, NaN becomes `""`, anything else is
its `str(·)` rendering. -/
def safeString (c : RawCell) : String :=
  if c.isNA then "" else c.asString

/-- A raw row of the `Log` sheet (columns `LOG_COLUMNS`). -/
structure LogRow where
  Date : RawCell
  Project : RawCell
  Activity : RawCell
  Start : RawCell
  End : RawCell
  DurationMinutes : RawCell
  Notes : RawCell
deriving DecidableEq, Repr

/-- A row of the `Projects` sheet (columns `PROJECT_COLUMNS`).  The two cells
are kept as the strings pandas renders for them (`build_project_map` applies
`fillna("")` then `astype(str)`, so a missing cell is the empty string). -/
structure DefRow where
  Project : String
  Activity : String
deriving DecidableEq, Repr

/-- A raw row of the `Active` sheet (columns `ACTIVE_COLUMNS`). -/
structure ActiveRow where
  Project : RawCell
  Activity : RawCell
  Notes : RawCell
  Start : RawCell
deriving DecidableEq, Repr

/-- The three sheets of the workbook, as `read_workbook` returns them. -/
structure Store where
  log : List LogRow
  defs : List DefRow
  active : List ActiveRow
deriving DecidableEq, Repr

/-! ## `format_duration` and date labels -/

/-- `format_duration`: minutes to a human-readable duration. -/
def format_duration (minutes : ℚ) : String :=
  let total_seconds : ℤ := pyRound (minutes * 60)
  let hours : ℤ := total_seconds.fdiv 3600
  let remainder : ℤ := total_seconds.fmod 3600
  let mins : ℤ := remainder.fdiv 60
  let secs : ℤ := remainder.fmod 60
  if hours ≠ 0 then pad2 hours ++ "h " ++ pad2 mins ++ "m"
  else if mins ≠ 0 then toString mins ++ "m " ++ pad2 secs ++ "s"
  else toString secs ++ "s"

/-- The duration formatter exactly as the specification words it: the first
two branches are guarded by `hours > 0` and `minutes > 0`, where the code
guards them by Python truthiness, i.e. `≠ 0`. -/
def format_duration_asSpecified (minutes : ℚ) : String :=
  let total_seconds : ℤ := pyRound (minutes * 60)
  let hours : ℤ := total_seconds.fdiv 3600
  let remainder : ℤ := total_seconds.fmod 3600
  let mins : ℤ := remainder.fdiv 60
  let secs : ℤ := remainder.fmod 60
  if hours > 0 then pad2 hours ++ "h " ++ pad2 mins ++ "m"
  else if mins > 0 then toString mins ++ "m " ++ pad2 secs ++ "s"
  else toString secs ++ "s"

/-- Proleptic-Gregorian civil date `(year, month, day)` of a day index
(day 0 is 1970-01-01). -/
def civilFromDays (z0 : ℤ) : ℤ × ℤ × ℤ :=
  let z := z0 + 719468
  let era := z.fdiv 146097
  let doe := z - era * 146097
  let yoe := (doe - doe.fdiv 1460 + doe.fdiv 36524 - doe.fdiv 146096).fdiv 365
  let y := yoe + era * 400
  let doy := doe - (365 * yoe + yoe.fdiv 4 - yoe.fdiv 100)
  let mp := (5 * doy + 2).fdiv 153
  let d := doy - (153 * mp + 2).fdiv 5 + 1
  let m := mp + (if mp < 10 then 3 else -9)
  (y + (if m ≤ 2 then 1 else 0), m, d)

/-- `strftime("%b")`: the abbreviated month name. -/
def monthAbbrev (m : ℤ) : String :=
  if m = 1 then "Jan" else if m = 2 then "Feb" else if m = 3 then "Mar"
  else if m = 4 then "Apr" else if m = 5 then "May" else if m = 6 then "Jun"
  else if m = 7 then "Jul" else if m = 8 then "Aug" else if m = 9 then "Sep"
  else if m = 10 then "Oct" else if m = 11 then "Nov" else "Dec"

/-- `strftime("%b %d, %Y")` on a day index, as used for the daily labels. -/
def formatDateLabel (day : ℤ) : String :=
  let ymd := civilFromDays day
  monthAbbrev ymd.2.1 ++ " " ++ pad2 ymd.2.2 ++ ", " ++ toString ymd.1

/-! ## Log normalizer -/

/-- A row of `normalize_log_dataframe`'s output: `Date` is parsed to a
calendar date, `Start`/`End` to timestamps (`none` is NaT), and
`DurationMinutes` to a number with NaN filled by `0`.  The remaining columns
pass through untouched. -/
structure NormEntry where
  Date : Option ℤ
  Project : RawCell
  Activity : RawCell
  Start : Option Timestamp
  End : Option Timestamp
  DurationMinutes : ℚ
  Notes : RawCell
deriving DecidableEq, Repr

/-- `normalize_log_dataframe`. -/
def normalize_log_dataframe (log : List LogRow) : List NormEntry :=
  if log.isEmpty then []
  else log.map fun r =>
    { Date := r.Date.parseTimestamp.map Timestamp.dateOf
      Project := r.Project
      Activity := r.Activity
      Start := r.Start.parseTimestamp
      End := r.End.parseTimestamp
      DurationMinutes := (r.DurationMinutes.parseNumber).getD 0
      Notes := r.Notes }

/-! ## Aggregation engine: the daily branch of `build_summary`

`build_summary` is called on the output of `normalize_log_dataframe`; its
re-coercions `pd.to_datetime(df[Start])` and
`pd.to_numeric(df[DurationMinutes]).fillna(0)` are the identity on that
already-normalized input.  `df.dropna(subset := [Start])` keeps the rows with
a parseable `Start`, `DateOnly` is `Start.dt.date`, and the groupby sums
`DurationMinutes` per date with keys sorted descending. -/

/-- The `(DateOnly, DurationMinutes)` pairs of the rows surviving
`dropna(subset := [Start])`. -/
def dailyKeyed (entries : List NormEntry) : List (ℤ × ℚ) :=
  entries.filterMap fun e => e.Start.map fun t => (t.dateOf, e.DurationMinutes)

/-- The summed minutes of one groupby bucket. -/
def sumByKey (kvs : List (ℤ × ℚ)) (k : ℤ) : ℚ :=
  ((kvs.filter fun kv => kv.1 == k).map Prod.snd).sum

/-- The pre-formatting daily series of `build_summary`: per-date summed
minutes, dates descending. -/
def dailySeries (entries : List NormEntry) : List (ℤ × ℚ) :=
  if entries.isEmpty then []
  else
    let kvs := dailyKeyed entries
    let keys := List.insertionSort intGe (kvs.map Prod.fst).dedup
    keys.map fun d => (d, sumByKey kvs d)

/-- The `daily` component of `build_summary`'s output:
`(strftime("%b %d, %Y") label, format_duration value)` pairs. -/
def build_summary_daily (entries : List NormEntry) : List (String × String) :=
  (dailySeries entries).map fun kv => (formatDateLabel kv.1, format_duration kv.2)

/-! ## Taxonomy index -/

/-- `build_project_map`: project name to its sorted, deduplicated, nonempty
activities; rows are trimmed, blank projects are dropped.  The Python dict is
modelled as the association list in its (sorted) insertion order. -/
def build_project_map (rows : List DefRow) : List (String × List String) :=
  if rows.isEmpty then []
  else
    let cleaned := rows.map fun r => (pyStrip r.Project, pyStrip r.Activity)
    let keys := List.insertionSort strLe (cleaned.map Prod.fst).dedup
    (keys.filter fun p => !(p == "")).map fun p =>
      (p, List.insertionSort strLe
            ((((cleaned.filter fun kv => kv.1 == p).map Prod.snd).filter
                fun a => !(a == "")).dedup))

inductive AddOutcome
  | validationError
  | duplicateDefinition
  | added
deriving DecidableEq, Repr

/-- `add_project_activity`: trims both names, rejects blanks, rejects a
case-insensitive duplicate, otherwise appends the trimmed definition. -/
def add_project_activity (s : Store) (project activity : String) :
    AddOutcome × Store :=
  let project_name := pyStrip project
  let activity_name := pyStrip activity
  if project_name = "" ∨ activity_name = "" then (.validationError, s)
  else if s.defs.any fun r =>
      pyLower r.Project == pyLower project_name &&
      pyLower r.Activity == pyLower activity_name then
    (.duplicateDefinition, s)
  else (.added, { s with defs := s.defs ++ [⟨project_name, activity_name⟩] })

/-! ## Session state machine -/

inductive StartOutcome
  | alreadyRunning
  | missingProject
  | missingActivity
  | undefinedPair
  | started
deriving DecidableEq, Repr

/-- `handle_start`: refuses when a session is already running, validates the
trimmed inputs against the taxonomy, then persists the single active row with
`Start := now`. -/
def handle_start (s : Store) (now : Timestamp)
    (projectInput activityInput notesInput : String) : StartOutcome × Store :=
  if !s.active.isEmpty then (.alreadyRunning, s)
  else
    let project := pyStrip projectInput
    let activity := pyStrip activityInput
    let notes := pyStrip notesInput
    if project = "" then (.missingProject, s)
    else if activity = "" then (.missingActivity, s)
    else
      match (build_project_map s.defs).find? fun kv => kv.1 == project with
      | none => (.undefinedPair, s)
      | some kv =>
        if activity ∈ kv.2 then
          (.started,
           { s with active := [⟨RawCell.ofString project, RawCell.ofString activity,
                                RawCell.ofString notes, RawCell.ofTimestamp now⟩] })
        else (.undefinedPair, s)

inductive StopOutcome
  | noActiveSession
  | corruptSession
  | saved
deriving DecidableEq, Repr

/-- `handle_stop`: refuses when idle; clears a session whose `Start` does not
parse; otherwise appends the completed log entry and clears the session. -/
def handle_stop (s : Store) (now : Timestamp) (notesInput : String) :
    StopOutcome × Store :=
  match s.active with
  | [] => (.noActiveSession, s)
  | active_entry :: _ =>
    let notes := pyStrip notesInput
    match active_entry.Start.parseTimestamp with
    | none => (.corruptSession, { s with active := [] })
    | some start_dt =>
      let duration_minutes := roundTo2 ((now.seconds - start_dt.seconds) / 60)
      let entry : LogRow :=
        { Date := RawCell.ofDate start_dt.dateOf
          Project := active_entry.Project
          Activity := active_entry.Activity
          Start := RawCell.ofTimestamp start_dt
          End := RawCell.ofTimestamp now
          DurationMinutes := RawCell.ofNumber duration_minutes
          Notes := if notes = "" then active_entry.Notes else RawCell.ofString notes }
      (.saved, { log := s.log ++ [entry], defs := s.defs, active := [] })

/-! ## Active-session display -/

/-- The display record `build_active_entry` hands to the template; the
`start_display` and `start_iso` strings are both strftime renderings of the
`start` field. -/
structure ActiveDisplay where
  project : String
  activity : String
  notes : String
  start : Timestamp
deriving DecidableEq, Repr

/-- `build_active_entry`: `none` models the empty dict `{}` the template
receives in the idle state. -/
def build_active_entry (active : List ActiveRow) : Option ActiveDisplay :=
  match active with
  | [] => none
  | row :: _ =>
    match row.Start.parseTimestamp with
    | none => none
    | some start_dt =>
      some ⟨safeString row.Project, safeString row.Activity, safeString row.Notes, start_dt⟩

/-! ## Sanity checks on concrete values (kernel-evaluable) -/

theorem pyRound_intCast (n : ℤ) : pyRound (n : ℚ) = n := by
  unfold pyRound
  rw [Int.floor_intCast]
  norm_num

example : format_duration 0 = "0s" := by
  have h : (0 : ℚ) * 60 = ((0 : ℤ) : ℚ) := by norm_num
  simp only [format_duration, h, pyRound_intCast]
  decide
example : format_duration (3/2) = "1m 30s" := by
  have h : (3/2 : ℚ) * 60 = ((90 : ℤ) : ℚ) := by norm_num
  simp only [format_duration, h, pyRound_intCast]
  decide
example : format_duration 90 = "01h 30m" := by
  have h : (90 : ℚ) * 60 = ((5400 : ℤ) : ℚ) := by norm_num
  simp only [format_duration, h, pyRound_intCast]
  decide
example : formatDateLabel 0 = "Jan 01, 1970" := by decide
example : build_project_map [⟨" Work ", " Email "⟩, ⟨"Work", "Admin"⟩, ⟨"", "X"⟩, ⟨"Work", "Email"⟩] =
    [("Work", ["Admin", "Email"])] := by decide
example : (⟨86300⟩ : Timestamp) = ⟨86300⟩ := by decide

/-! ## Helper lemmas -/

theorem pyRound_nonneg {q : ℚ} (h : 0 ≤ q) : 0 ≤ pyRound q := by
  have hf : (0 : ℤ) ≤ ⌊q⌋ := Int.le_floor.mpr (by exact_mod_cast h)
  simp only [pyRound]
  split_ifs <;> omega

theorem handle_start_started (s : Store) (now : Timestamp) (p a n : String)
    (h : (handle_start s now p a n).1 = .started) :
    (handle_start s now p a n).2 =
      { s with active := [⟨RawCell.ofString (pyStrip p), RawCell.ofString (pyStrip a),
                           RawCell.ofString (pyStrip n), RawCell.ofTimestamp now⟩] } := by
  by_cases c1 : s.active.isEmpty
  · by_cases c2 : pyStrip p = ""
    · simp [handle_start, c1, c2] at h
    · by_cases c3 : pyStrip a = ""
      · simp [handle_start, c1, c2, c3] at h
      · rcases hf : (build_project_map s.defs).find? fun kv => kv.1 == pyStrip p with _ | kv
        · simp [handle_start, c1, c2, c3, hf] at h
        · by_cases c5 : pyStrip a ∈ kv.2
          · simp [handle_start, c1, c2, c3, hf, c5]
          · simp [handle_start, c1, c2, c3, hf, c5] at h
  · simp [handle_start, c1] at h

/-! ## Claims -/

/-- C3: whenever an ActiveSession row exists, `handle_start` fails with
`AlreadyRunning` and returns the store unchanged, for every project, activity
and notes input. -/
theorem start_while_running (s : Store) (now : Timestamp) (p a n : String)
    (h : s.active ≠ []) :
    handle_start s now p a n = (.alreadyRunning, s) := by
  have he : s.active.isEmpty = false := by
    cases hs : s.active with
    | nil => exact absurd hs h
    | cons x xs => simp [hs]
  simp [handle_start, he]

theorem start_while_running_witness :
    handle_start ⟨[], [⟨"Work", "Email"⟩],
        [⟨RawCell.ofString "Work", RawCell.ofString "Email", RawCell.ofString "",
          ⟨none, none, "", false⟩⟩]⟩ ⟨0⟩ "Work" "Email" "note" =
      (.alreadyRunning,
       ⟨[], [⟨"Work", "Email"⟩],
        [⟨RawCell.ofString "Work", RawCell.ofString "Email", RawCell.ofString "",
          ⟨none, none, "", false⟩⟩]⟩) :=
  start_while_running _ _ _ _ _ (by decide)

/-- C4: whenever no ActiveSession row exists, `handle_stop` fails with
`NoActiveSession` and returns the store unchanged, for every notes input. -/
theorem stop_while_idle (s : Store) (now : Timestamp) (n : String)
    (h : s.active = []) :
    handle_stop s now n = (.noActiveSession, s) := by
  simp [handle_stop, h]

theorem stop_while_idle_witness :
    handle_stop ⟨[], [⟨"Work", "Email"⟩], []⟩ ⟨0⟩ "some notes" =
      (.noActiveSession, ⟨[], [⟨"Work", "Email"⟩], []⟩) :=
  stop_while_idle _ _ _ (by decide)

/-- C5: when the first ActiveSession row's `Start` does not parse,
`handle_stop` fails with `CorruptSession`, appends nothing to the log, and
clears the ActiveSession table (the resulting state is idle). -/
theorem stop_corrupt_session (s : Store) (now : Timestamp) (n : String)
    (row : ActiveRow) (rest : List ActiveRow)
    (hA : s.active = row :: rest)
    (hC : row.Start.parseTimestamp = none) :
    handle_stop s now n = (.corruptSession, { s with active := [] }) := by
  simp [handle_stop, hA, hC]

theorem stop_corrupt_session_witness :
    handle_stop ⟨[], [], [⟨RawCell.ofString "Work", RawCell.ofString "Email",
        RawCell.ofString "", ⟨none, none, "not a time", false⟩⟩]⟩ ⟨0⟩ "n" =
      (.corruptSession, ⟨[], [], []⟩) :=
  stop_corrupt_session _ _ _
    ⟨RawCell.ofString "Work", RawCell.ofString "Email", RawCell.ofString "",
     ⟨none, none, "not a time", false⟩⟩ [] (by decide) (by decide)

/-- C9: a one-row ActiveSession table whose `Start` does not parse makes
`build_active_entry` return the empty display record, the same output as the
idle (empty-table) state. -/
theorem active_entry_unparsable_start (row : ActiveRow)
    (hC : row.Start.parseTimestamp = none) :
    build_active_entry [row] = build_active_entry [] ∧
    build_active_entry [row] = none := by
  refine ⟨?_, ?_⟩ <;> simp [build_active_entry, hC]

theorem active_entry_unparsable_start_witness :
    build_active_entry [⟨RawCell.ofString "Work", RawCell.ofString "Email",
        RawCell.ofString "notes", ⟨none, none, "garbled", false⟩⟩] =
      build_active_entry [] ∧
    build_active_entry [⟨RawCell.ofString "Work", RawCell.ofString "Email",
        RawCell.ofString "notes", ⟨none, none, "garbled", false⟩⟩] = none :=
  active_entry_unparsable_start _ (by decide)

/-- C10: every successful stop dates the appended LogEntry at the calendar
date of the session's `Start` timestamp, irrespective of the `End`
timestamp. -/
theorem stop_entry_dated_at_start (s : Store) (now : Timestamp) (n : String)
    (row : ActiveRow) (rest : List ActiveRow) (t : Timestamp)
    (hA : s.active = row :: rest)
    (hP : row.Start.parseTimestamp = some t) :
    handle_stop s now n =
      (.saved,
       { log := s.log ++
           [{ Date := RawCell.ofDate t.dateOf
              Project := row.Project
              Activity := row.Activity
              Start := RawCell.ofTimestamp t
              End := RawCell.ofTimestamp now
              DurationMinutes :=
                RawCell.ofNumber (roundTo2 ((now.seconds - t.seconds) / 60))
              Notes := if pyStrip n = "" then row.Notes
                       else RawCell.ofString (pyStrip n) }]
         defs := s.defs
         active := [] }) := by
  simp [handle_stop, hA, hP]

theorem stop_entry_dated_at_start_witness :
    handle_stop ⟨[], [], [⟨RawCell.ofString "Work", RawCell.ofString "Email",
        RawCell.ofString "", RawCell.ofTimestamp ⟨86300⟩⟩]⟩ ⟨90000⟩ "done" =
      (.saved,
       { log := [{ Date := RawCell.ofDate (Timestamp.dateOf ⟨86300⟩)
                   Project := RawCell.ofString "Work"
                   Activity := RawCell.ofString "Email"
                   Start := RawCell.ofTimestamp ⟨86300⟩
                   End := RawCell.ofTimestamp ⟨90000⟩
                   DurationMinutes := RawCell.ofNumber
                     (roundTo2 (((⟨90000⟩ : Timestamp).seconds -
                       (⟨86300⟩ : Timestamp).seconds) / 60))
                   Notes := if pyStrip "done" = "" then RawCell.ofString ""
                            else RawCell.ofString (pyStrip "done") }]
         defs := []
         active := [] }) ∧
    Timestamp.dateOf ⟨86300⟩ = 0 ∧ Timestamp.dateOf ⟨90000⟩ = 1 :=
  ⟨by
    have h := stop_entry_dated_at_start
      ⟨[], [], [⟨RawCell.ofString "Work", RawCell.ofString "Email",
        RawCell.ofString "", RawCell.ofTimestamp ⟨86300⟩⟩]⟩ ⟨90000⟩ "done"
      _ _ ⟨86300⟩ rfl rfl
    simpa using h,
   by
    constructor <;>
      simp only [Timestamp.dateOf] <;> rw [Int.floor_eq_iff] <;> norm_num⟩

/-- C2: a successful start followed by a stop with no intervening start
appends exactly one LogEntry — Project/Activity from the ActiveSession,
`DurationMinutes = round((End − Start) in minutes, 2)`, Notes from the
supplied notes with fallback to the stored notes — and empties the
ActiveSession table.  (The persisted `Start` of a session the handler wrote
always parses, so the claim's parseability proviso holds by construction.) -/
theorem stop_after_start (s : Store) (t0 t1 : Timestamp) (p a n n2 : String)
    (h : (handle_start s t0 p a n).1 = .started) :
    handle_stop (handle_start s t0 p a n).2 t1 n2 =
      (.saved,
       { log := s.log ++
           [{ Date := RawCell.ofDate t0.dateOf
              Project := RawCell.ofString (pyStrip p)
              Activity := RawCell.ofString (pyStrip a)
              Start := RawCell.ofTimestamp t0
              End := RawCell.ofTimestamp t1
              DurationMinutes :=
                RawCell.ofNumber (roundTo2 ((t1.seconds - t0.seconds) / 60))
              Notes := if pyStrip n2 = "" then RawCell.ofString (pyStrip n)
                       else RawCell.ofString (pyStrip n2) }]
         defs := s.defs
         active := [] }) := by
  rw [handle_start_started s t0 p a n h]
  simp [handle_stop, RawCell.ofTimestamp]

theorem stop_after_start_witness :
    (handle_start ⟨[], [⟨"Work", "Email"⟩], []⟩ ⟨0⟩ "Work" "Email" "prep").1 =
      .started ∧
    handle_stop (handle_start ⟨[], [⟨"Work", "Email"⟩], []⟩ ⟨0⟩ "Work" "Email"
        "prep").2 ⟨125⟩ "done" =
      (.saved,
       { log := [{ Date := RawCell.ofDate (Timestamp.dateOf ⟨0⟩)
                   Project := RawCell.ofString (pyStrip "Work")
                   Activity := RawCell.ofString (pyStrip "Email")
                   Start := RawCell.ofTimestamp ⟨0⟩
                   End := RawCell.ofTimestamp ⟨125⟩
                   DurationMinutes := RawCell.ofNumber
                     (roundTo2 (((⟨125⟩ : Timestamp).seconds -
                       (⟨0⟩ : Timestamp).seconds) / 60))
                   Notes := if pyStrip "done" = "" then RawCell.ofString (pyStrip "prep")
                            else RawCell.ofString (pyStrip "done") }]
         defs := [⟨"Work", "Email"⟩]
         active := [] }) :=
  ⟨by decide,
   by simpa using
     stop_after_start ⟨[], [⟨"Work", "Email"⟩], []⟩ ⟨0⟩ ⟨125⟩ "Work" "Email"
       "prep" "done" (by decide)⟩

/-- C6 as stated is false: for a negative minutes argument (which the log can
contain, per the spec's backward-clock edge case) the code's truthiness test
`if hours:` fires on negative hours, while the claim's `hours > 0` branch
structure renders the plain seconds form. -/
theorem format_duration_counterexample :
    format_duration (-60) = "-1h 00m" ∧
    format_duration_asSpecified (-60) = "0s" ∧
    format_duration (-60) ≠ format_duration_asSpecified (-60) := by
  have h : (-60 : ℚ) * 60 = ((-3600 : ℤ) : ℚ) := by norm_num
  refine ⟨?_, ?_, ?_⟩ <;>
    simp only [format_duration, format_duration_asSpecified, h, pyRound_intCast] <;>
    decide

/-- C6 amended: for nonnegative minutes, `format_duration` renders exactly as
the specification describes (`round(minutes * 60)` seconds; `"HHh MMm"`
zero-padded when hours > 0, else `"Mm SSs"` when minutes > 0, else `"Ss"`);
in particular the three quoted examples hold. -/
theorem format_duration_amended :
    (∀ m : ℚ, 0 ≤ m → format_duration m = format_duration_asSpecified m) ∧
    format_duration 0 = "0s" ∧ format_duration (3/2) = "1m 30s" ∧
    format_duration 90 = "01h 30m" := by
  refine ⟨fun m hm => ?_, ?_, ?_, ?_⟩
  · have h0 : (0 : ℚ) ≤ m * 60 := mul_nonneg hm (by norm_num)
    have h1 : 0 ≤ pyRound (m * 60) := pyRound_nonneg h0
    have h2 : 0 ≤ (pyRound (m * 60)).fdiv 3600 := Int.fdiv_nonneg h1 (by norm_num)
    have h3 : 0 ≤ (pyRound (m * 60)).fmod 3600 := Int.fmod_nonneg h1 (by norm_num)
    have h4 : 0 ≤ ((pyRound (m * 60)).fmod 3600).fdiv 60 :=
      Int.fdiv_nonneg h3 (by norm_num)
    have e1 : ((pyRound (m * 60)).fdiv 3600 ≠ 0) ↔
        ((pyRound (m * 60)).fdiv 3600 > 0) := by omega
    have e2 : (((pyRound (m * 60)).fmod 3600).fdiv 60 ≠ 0) ↔
        (((pyRound (m * 60)).fmod 3600).fdiv 60 > 0) := by omega
    simp only [format_duration, format_duration_asSpecified, e1, e2]
  · have h : (0 : ℚ) * 60 = ((0 : ℤ) : ℚ) := by norm_num
    simp only [format_duration, h, pyRound_intCast]
    decide
  · have h : (3/2 : ℚ) * 60 = ((90 : ℤ) : ℚ) := by norm_num
    simp only [format_duration, h, pyRound_intCast]
    decide
  · have h : (90 : ℚ) * 60 = ((5400 : ℤ) : ℚ) := by norm_num
    simp only [format_duration, h, pyRound_intCast]
    decide

theorem format_duration_amended_witness :
    format_duration (3/2) = format_duration_asSpecified (3/2) :=
  format_duration_amended.1 (3/2) (by norm_num)

/-- C8 as stated is false at one corner: with a blank-blank definition row on
file and blank inputs, an existing definition matches both (trimmed) fields
case-insensitively, yet the handler fails with the blank-name validation
error, not `DuplicateDefinition`. -/
theorem add_definition_counterexample :
    add_project_activity ⟨[], [⟨"", ""⟩], []⟩ "" "" =
      (.validationError, ⟨[], [⟨"", ""⟩], []⟩) ∧
    ((⟨[], [⟨"", ""⟩], []⟩ : Store).defs.any fun r =>
        pyLower r.Project == pyLower (pyStrip "") &&
        pyLower r.Activity == pyLower (pyStrip "")) = true ∧
    AddOutcome.validationError ≠ AddOutcome.duplicateDefinition :=
  ⟨by decide, by decide, by decide⟩

/-- C8 amended: whenever both names are nonempty after trimming and an
existing definition matches both trimmed fields case-insensitively,
`add_project_activity` fails with `DuplicateDefinition` and performs no
write; in particular adding ("Work","Email") then ("work","EMAIL") fails the
second time. -/
theorem add_definition_duplicate (s : Store) (p a : String)
    (hp : pyStrip p ≠ "") (ha : pyStrip a ≠ "")
    (hdup : ∃ r ∈ s.defs, pyLower r.Project = pyLower (pyStrip p) ∧
        pyLower r.Activity = pyLower (pyStrip a)) :
    add_project_activity s p a = (.duplicateDefinition, s) := by
  have hany : (s.defs.any fun r =>
      pyLower r.Project == pyLower (pyStrip p) &&
      pyLower r.Activity == pyLower (pyStrip a)) = true := by
    rw [List.any_eq_true]
    obtain ⟨r, hr, h1, h2⟩ := hdup
    exact ⟨r, hr, by simp [h1, h2]⟩
  simp [add_project_activity, hp, ha, hany]

theorem add_definition_duplicate_witness :
    add_project_activity ⟨[], [], []⟩ "Work" "Email" =
      (.added, ⟨[], [⟨"Work", "Email"⟩], []⟩) ∧
    add_project_activity ⟨[], [⟨"Work", "Email"⟩], []⟩ "work" "EMAIL" =
      (.duplicateDefinition, ⟨[], [⟨"Work", "Email"⟩], []⟩) :=
  ⟨by decide,
   add_definition_duplicate ⟨[], [⟨"Work", "Email"⟩], []⟩ "work" "EMAIL"
     (by decide) (by decide)
     ⟨⟨"Work", "Email"⟩, by decide, by decide, by decide⟩⟩

/-! ## Order facts for the string comparison, and trim idempotence -/

theorem listCharLe_total : ∀ a b : List Char,
    listCharLe a b = true ∨ listCharLe b a = true
  | [], _ => Or.inl rfl
  | _ :: _, [] => Or.inr rfl
  | a :: as, b :: bs => by
    by_cases h1 : a.toNat < b.toNat
    · left; simp [listCharLe, h1]
    · by_cases h2 : b.toNat < a.toNat
      · right; simp [listCharLe, h2]
      · rcases listCharLe_total as bs with h | h
        · left; simp [listCharLe, h1, h2, h]
        · right; simp [listCharLe, h1, h2, h]

theorem listCharLe_trans : ∀ a b c : List Char, listCharLe a b = true →
    listCharLe b c = true → listCharLe a c = true
  | [], _, _, _, _ => rfl
  | _ :: _, [], _, h1, _ => by simp [listCharLe] at h1
  | _ :: _, _ :: _, [], _, h2 => by simp [listCharLe] at h2
  | a :: as, b :: bs, c :: cs, h1, h2 => by
    simp only [listCharLe] at h1 h2 ⊢
    by_cases hab : a.toNat < b.toNat
    · by_cases hbc : b.toNat < c.toNat
      · simp [Nat.lt_trans hab hbc]
      · by_cases hcb : c.toNat < b.toNat
        · simp [hbc, hcb] at h2
        · have hac : a.toNat < c.toNat := by omega
          simp [hac]
    · by_cases hba : b.toNat < a.toNat
      · simp [hab, hba] at h1
      · simp only [hab, hba, if_false] at h1
        by_cases hbc : b.toNat < c.toNat
        · have hac : a.toNat < c.toNat := by omega
          simp [hac]
        · by_cases hcb : c.toNat < b.toNat
          · simp [hbc, hcb] at h2
          · simp only [hbc, hcb, if_false] at h2
            have h3 : ¬ a.toNat < c.toNat := by omega
            have h4 : ¬ c.toNat < a.toNat := by omega
            simp [h3, h4, listCharLe_trans as bs cs h1 h2]

instance : IsTotal String strLe := ⟨fun a b => listCharLe_total a.data b.data⟩

instance : IsTrans String strLe := ⟨fun a b c => listCharLe_trans a.data b.data c.data⟩

theorem dropWhile_idem (p : Char → Bool) (l : List Char) :
    (l.dropWhile p).dropWhile p = l.dropWhile p := by
  induction l with
  | nil => rfl
  | cons a t ih =>
    by_cases h : p a
    · simp [List.dropWhile_cons, h, ih]
    · simp [List.dropWhile_cons, h]

theorem dropWhile_head_not (p : Char → Bool) (a : Char) (t : List Char)
    (h : List.dropWhile p (a :: t) = a :: t) : p a = false := by
  by_cases hp : p a
  · rw [List.dropWhile_cons, if_pos hp] at h
    have h1 : (List.dropWhile p t).length ≤ t.length :=
      (List.dropWhile_sublist p).length_le
    rw [h] at h1
    simp only [List.length_cons] at h1
    omega
  · cases hv : p a with
    | false => rfl
    | true => exact absurd hv hp

/-- Right-trimming preserves the absence of leading whitespace. -/
theorem dropWhile_rstrip (p : Char → Bool) (m : List Char)
    (hm : m.dropWhile p = m) :
    ((m.reverse.dropWhile p).reverse).dropWhile p =
      (m.reverse.dropWhile p).reverse := by
  obtain ⟨u, hu⟩ := List.dropWhile_suffix (l := m.reverse) p
  have hm2 : (m.reverse.dropWhile p).reverse ++ u.reverse = m := by
    have h := congrArg List.reverse hu
    simpa [List.reverse_append] using h
  cases hd : (m.reverse.dropWhile p).reverse with
  | nil => simp
  | cons a t =>
    have hma : m = a :: (t ++ u.reverse) := by
      rw [← hm2, hd]; simp
    have hpa : p a = false := by
      refine dropWhile_head_not p a (t ++ u.reverse) ?_
      rw [← hma]
      exact hm
    rw [List.dropWhile_cons, if_neg (by simp [hpa])]

theorem pyStripList_idem (l : List Char) :
    pyStripList (pyStripList l) = pyStripList l := by
  unfold pyStripList
  rw [dropWhile_rstrip Char.isWhitespace (l.dropWhile Char.isWhitespace)
        (dropWhile_idem Char.isWhitespace l),
      List.reverse_reverse,
      dropWhile_idem Char.isWhitespace
        (l.dropWhile Char.isWhitespace).reverse]

theorem pyStrip_idem (s : String) : pyStrip (pyStrip s) = pyStrip s := by
  unfold pyStrip
  exact congrArg String.mk (pyStripList_idem s.data)

/-- C7: every key of `build_project_map` is nonempty after trimming, every
listed activity is nonempty after trimming, the activity lists are strictly
ascending (sorted and duplicate-free), and an empty definitions table yields
an empty mapping. -/
theorem build_project_map_wellFormed (rows : List DefRow) :
    (∀ kv ∈ build_project_map rows,
        pyStrip kv.1 ≠ "" ∧
        (∀ act ∈ kv.2, pyStrip act ≠ "") ∧
        kv.2.Pairwise fun x y => strLe x y ∧ x ≠ y) ∧
    build_project_map ([] : List DefRow) = [] := by
  constructor
  · intro kv hkv
    by_cases hrows : rows.isEmpty
    · simp [build_project_map, hrows] at hkv
    · simp only [build_project_map, hrows, Bool.false_eq_true, if_false,
        List.mem_map, List.mem_filter] at hkv
      obtain ⟨p, ⟨hpkeys, hpne⟩, hkveq⟩ := hkv
      subst hkveq
      have hpne' : p ≠ "" := by simpa using hpne
      refine ⟨?_, ?_, ?_⟩
      · -- the key was produced by pyStrip, so trimming it again changes nothing
        rw [List.mem_insertionSort, List.mem_dedup, List.mem_map] at hpkeys
        obtain ⟨c, hc, hcp⟩ := hpkeys
        rw [List.mem_map] at hc
        obtain ⟨r, _, hr⟩ := hc
        have : pyStrip p = p := by
          rw [← hcp, ← hr]
          exact pyStrip_idem r.Project
        rw [this]
        exact hpne'
      · intro act hact
        rw [List.mem_insertionSort, List.mem_dedup, List.mem_filter] at hact
        obtain ⟨hmem, hne⟩ := hact
        have hne' : act ≠ "" := by simpa using hne
        rw [List.mem_map] at hmem
        obtain ⟨c, hc, hca⟩ := hmem
        rw [List.mem_filter] at hc
        obtain ⟨hc', _⟩ := hc
        rw [List.mem_map] at hc'
        obtain ⟨r, _, hr⟩ := hc'
        have : pyStrip act = act := by
          rw [← hca, ← hr]
          exact pyStrip_idem r.Activity
        rw [this]
        exact hne'
      · have hsorted := List.sorted_insertionSort strLe
          ((((rows.map fun r => (pyStrip r.Project, pyStrip r.Activity)).filter
              fun kv => kv.1 == p).map Prod.snd).filter fun a => !(a == "")).dedup
        have hnodup : (List.insertionSort strLe
            ((((rows.map fun r => (pyStrip r.Project, pyStrip r.Activity)).filter
                fun kv => kv.1 == p).map Prod.snd).filter
                  fun a => !(a == "")).dedup).Nodup :=
          (List.perm_insertionSort strLe _).nodup_iff.mpr (List.nodup_dedup _)
        exact List.Pairwise.and hsorted hnodup
  · rfl

theorem build_project_map_wellFormed_witness :
    pyStrip "Work" ≠ "" ∧
    (∀ act ∈ (["Email"] : List String), pyStrip act ≠ "") ∧
    (["Email"] : List String).Pairwise (fun x y => strLe x y ∧ x ≠ y) ∧
    build_project_map ([] : List DefRow) = [] :=
  have h := (build_project_map_wellFormed [⟨" Work ", " Email "⟩]).1
    ("Work", ["Email"]) (by decide)
  ⟨h.1, h.2.1, h.2.2, (build_project_map_wellFormed []).2⟩

/-! ## Sum conservation for the daily buckets -/

theorem sum_filter_add_sum_filter_not (l : List (ℤ × ℚ)) (p : ℤ × ℚ → Bool) :
    ((l.filter p).map Prod.snd).sum +
      ((l.filter fun x => !(p x)).map Prod.snd).sum = (l.map Prod.snd).sum := by
  induction l with
  | nil => simp
  | cons x t ih =>
    by_cases hx : p x
    · simp only [List.filter_cons, hx, Bool.not_true, if_true, if_false,
        Bool.false_eq_true, List.map_cons, List.sum_cons]
      linarith [ih]
    · simp only [List.filter_cons, hx, Bool.not_false, if_true, if_false,
        Bool.false_eq_true, List.map_cons, List.sum_cons]
      linarith [ih]

theorem sum_groups (keys : List ℤ) : ∀ kvs : List (ℤ × ℚ),
    keys.Nodup → (∀ kv ∈ kvs, kv.1 ∈ keys) →
    (keys.map (sumByKey kvs)).sum = (kvs.map Prod.snd).sum := by
  induction keys with
  | nil =>
    intro kvs _ hcov
    have hk : kvs = [] := by
      cases kvs with
      | nil => rfl
      | cons x t => exact absurd (hcov x (by simp)) (by simp)
    simp [hk]
  | cons k ks ih =>
    intro kvs hnd hcov
    have hnd' := List.nodup_cons.mp hnd
    have h1 : ∀ k' ∈ ks, sumByKey kvs k' =
        sumByKey (kvs.filter fun kv => !(kv.1 == k)) k' := by
      intro k' hk'
      have hkk : k' ≠ k := fun he => hnd'.1 (he ▸ hk')
      unfold sumByKey
      rw [List.filter_filter]
      refine congrArg (fun l : List (ℤ × ℚ) => (l.map Prod.snd).sum)
        (List.filter_congr ?_)
      intro kv _
      by_cases h : kv.1 = k'
      · rw [h]
        simp [hkk]
      · simp [h]
    have h2 : ∀ kv ∈ kvs.filter (fun kv => !(kv.1 == k)), kv.1 ∈ ks := by
      intro kv hkv
      rw [List.mem_filter] at hkv
      obtain ⟨hkv1, hkv2⟩ := hkv
      have hmem := hcov kv hkv1
      simp only [Bool.not_eq_true', beq_eq_false_iff_ne] at hkv2
      rcases List.mem_cons.mp hmem with h | h
      · exact absurd h hkv2
      · exact h
    calc (List.map (sumByKey kvs) (k :: ks)).sum
        = sumByKey kvs k + (ks.map (sumByKey kvs)).sum := by simp
      _ = sumByKey kvs k +
            (ks.map (sumByKey (kvs.filter fun kv => !(kv.1 == k)))).sum := by
          rw [List.map_congr_left h1]
      _ = sumByKey kvs k +
            ((kvs.filter fun kv => !(kv.1 == k)).map Prod.snd).sum := by
          rw [ih _ hnd'.2 h2]
      _ = (kvs.map Prod.snd).sum := by
          have h := sum_filter_add_sum_filter_not kvs fun kv => kv.1 == k
          unfold sumByKey
          linarith [h]

theorem filter_isSome_sum (entries : List NormEntry) :
    ((entries.filter fun e => e.Start.isSome).map NormEntry.DurationMinutes).sum =
      ((dailyKeyed entries).map Prod.snd).sum := by
  induction entries with
  | nil => rfl
  | cons e t ih =>
    cases he : e.Start with
    | none =>
      have h1 : (e :: t).filter (fun e => e.Start.isSome) =
          t.filter fun e => e.Start.isSome := by
        simp [List.filter_cons, he]
      have h2 : dailyKeyed (e :: t) = dailyKeyed t := by
        simp [dailyKeyed, List.filterMap_cons, he]
      rw [h1, h2, ih]
    | some t0 =>
      have h1 : (e :: t).filter (fun e => e.Start.isSome) =
          e :: (t.filter fun e => e.Start.isSome) := by
        simp [List.filter_cons, he]
      have h2 : dailyKeyed (e :: t) =
          (t0.dateOf, e.DurationMinutes) :: dailyKeyed t := by
        simp [dailyKeyed, List.filterMap_cons, he]
      rw [h1, h2]
      simp [ih]

/-- C1 as stated is false: a log row whose `Start` does not parse but whose
`DurationMinutes` does contributes to the total over all normalized entries
but to no daily bucket, because `build_summary` drops rows without a
parseable `Start` before grouping. -/
def c1Row : LogRow :=
  ⟨⟨none, none, "", true⟩, RawCell.ofString "P", RawCell.ofString "A",
   ⟨none, none, "garbled", false⟩, ⟨none, none, "", true⟩,
   RawCell.ofNumber 5, RawCell.ofString ""⟩

theorem daily_total_counterexample :
    ((normalize_log_dataframe [c1Row]).map NormEntry.DurationMinutes).sum = 5 ∧
    ((dailySeries (normalize_log_dataframe [c1Row])).map Prod.snd).sum = 0 ∧
    (5 : ℚ) ≠ 0 := by
  refine ⟨?_, ?_, by norm_num⟩
  · simp [normalize_log_dataframe, c1Row, RawCell.ofNumber]
  · simp [dailySeries, normalize_log_dataframe, dailyKeyed, c1Row]

/-- C1 amended: for every log table, the sum of `DurationMinutes` over the
normalized entries *with a parseable Start* equals the sum of the per-day
bucket minutes (before formatting) of `build_summary`'s daily output. -/
theorem daily_total_conserved (log : List LogRow) :
    (((normalize_log_dataframe log).filter fun e => e.Start.isSome).map
        NormEntry.DurationMinutes).sum =
      ((dailySeries (normalize_log_dataframe log)).map Prod.snd).sum := by
  generalize normalize_log_dataframe log = entries
  rw [filter_isSome_sum]
  by_cases hE : entries.isEmpty
  · cases entries with
    | nil => rfl
    | cons e t => simp at hE
  · simp only [dailySeries, hE, Bool.false_eq_true, if_false, List.map_map]
    have hnodup : (List.insertionSort intGe
        ((dailyKeyed entries).map Prod.fst).dedup).Nodup :=
      (List.perm_insertionSort intGe _).nodup_iff.mpr (List.nodup_dedup _)
    have hcov : ∀ kv ∈ dailyKeyed entries, kv.1 ∈
        List.insertionSort intGe ((dailyKeyed entries).map Prod.fst).dedup := by
      intro kv hkv
      rw [List.mem_insertionSort, List.mem_dedup]
      exact List.mem_map_of_mem Prod.fst hkv
    have h := sum_groups
      (List.insertionSort intGe ((dailyKeyed entries).map Prod.fst).dedup)
      (dailyKeyed entries) hnodup hcov
    rw [← h]
    rfl

end TimeTracker
